import Mathlib

/-!
# Verification of the bloom-sift library

A shallow embedding, in Lean 4, of the `bloom-sift` TypeScript package: a
Bloom filter built on a single 128-bit MurmurHash3 call and the
Kirsch–Mitzenmacher double-hashing technique.

Modelling conventions:

* JavaScript `number` values that carry real quantities (capacities and
  error rates, which are IEEE doubles in the source) are modelled as
  rationals at the interfaces; `Math.log` / `Math.LN2` become `Real.log`,
  so `calculateOptimalParams` computes over `ℝ` and the derived `size` and
  `hashCount` are integers obtained with `Int.ceil` and `round`
  (`Math.round x = ⌊x + 1/2⌋`, which is Lean's `round`).
* The 128-bit hash primitive `hash128x64` is an external collaborator with
  a deterministic contract; an item is therefore represented by its
  128-bit hash value `h : ℕ`, and the engine splits it exactly as the
  source does (`h1` = upper 64 bits, `h2` = lower 64 bits, BigInt
  arithmetic is exact arithmetic on `ℕ`).
* The packed bit vector `Uint8Array` is a `List ℕ` of byte values;
  out-of-range reads give `none` exactly as indexing past a `Uint8Array`
  gives `undefined`, which `setBit`/`getBit` test for.
* Strings handed to `btoa`/`atob` are lists of UTF-16 code units
  (here: byte / base64-character codes), and both codecs are implemented
  on that representation; `=` is code 61.
* Fallible operations (`new BloomSift`, `BloomSift.deserialize`) return
  `Except String`, the string being the thrown `Error`'s message.
-/

/-! ## Parameter calculator (`src/optimal.ts`)

```ts
const size = Math.ceil((-capacity * Math.log(errorRate)) / (Math.LN2 * Math.LN2));
const hashCount = Math.round((size / capacity) * Math.LN2);
return { size, hashCount };
```
The source performs no validation here; the `BloomSift` constructor does. -/

noncomputable def calculateOptimalParams (capacity errorRate : ℚ) : ℤ × ℤ :=
  let size : ℤ := ⌈-(capacity : ℝ) * Real.log (errorRate : ℝ) / (Real.log 2 * Real.log 2)⌉
  let hashCount : ℤ := round ((size : ℝ) / (capacity : ℝ) * Real.log 2)
  (size, hashCount)

/-! ## Bit array store (`setBit` / `getBit` of `src/index.ts`) -/

/-- `setBit`: `byteIndex = Math.floor(index / 8)`, `bitIndex = index % 8`;
the byte is OR-ed with `1 << bitIndex` only when reading it did not give
`undefined`. -/
def setBit (bits : List ℕ) (index : ℕ) : List ℕ :=
  match bits.get? (index / 8) with
  | some current => bits.set (index / 8) (current ||| (1 <<< (index % 8)))
  | none => bits

/-- `getBit`: true when the byte exists and `(byte & (1 << bitIndex)) !== 0`. -/
def getBit (bits : List ℕ) (index : ℕ) : Bool :=
  match bits.get? (index / 8) with
  | some byte => byte &&& (1 <<< (index % 8)) != 0
  | none => false

/-! ## The filter aggregate -/

/-- The `BloomSift` instance state: the private fields `bits`, `_size`,
`_hashCount`, `_capacity`, `_count`. -/
structure BloomSift where
  bits : List ℕ
  size : ℤ
  hashCount : ℤ
  capacity : ℚ
  count : ℤ
  deriving DecidableEq

/-- The k derived bit positions `Number((h1 + BigInt(i) * h2) % size)` for
`i = 0 .. hashCount - 1`, over exact (BigInt) arithmetic. -/
def bitIndices (f : BloomSift) (h1 h2 : ℕ) : List ℕ :=
  (List.range f.hashCount.toNat).map fun i => (h1 + i * h2) % f.size.toNat

/-- `add`: set every derived bit, then increment `_count` unconditionally. -/
def BloomSift.add (f : BloomSift) (h1 h2 : ℕ) : BloomSift :=
  { f with bits := (bitIndices f h1 h2).foldl setBit f.bits, count := f.count + 1 }

/-- `has`: true exactly when every derived bit is set (the source's early
`return false` is observationally the same as checking them all). -/
def BloomSift.has (f : BloomSift) (h1 h2 : ℕ) : Bool :=
  (bitIndices f h1 h2).all fun idx => getBit f.bits idx

/-- `clear`: `bits.fill(0)` and `_count = 0`. -/
def BloomSift.clear (f : BloomSift) : BloomSift :=
  { f with bits := List.replicate f.bits.length 0, count := 0 }

/-- `fillRatio`: `Math.min(1, this._count / this._capacity)`. -/
def BloomSift.fillRatio (f : BloomSift) : ℚ :=
  min 1 ((f.count : ℚ) / f.capacity)

/-- The hash splitter applied to an item's 128-bit hash value `h`:
`h1 = hash >> 64n`, `h2 = hash & ((1n << 64n) - 1n)`, then `add`. -/
def BloomSift.addItem (f : BloomSift) (h : ℕ) : BloomSift :=
  f.add (h / 2 ^ 64) (h % 2 ^ 64)

/-- The hash splitter applied to an item's 128-bit hash value `h`, then `has`. -/
def BloomSift.hasItem (f : BloomSift) (h : ℕ) : Bool :=
  f.has (h / 2 ^ 64) (h % 2 ^ 64)

/-- The constructor `new BloomSift({capacity, errorRate})`: validate, call
the parameter calculator, allocate `Math.ceil(size / 8)` zero bytes. -/
noncomputable def mkBloomSift (capacity errorRate : ℚ) : Except String BloomSift :=
  if capacity ≤ 0 then .error "capacity must be positive"
  else if errorRate ≤ 0 ∨ 1 ≤ errorRate then .error "errorRate must be between 0 and 1"
  else
    let p := calculateOptimalParams capacity errorRate
    .ok { bits := List.replicate (⌈(p.1 : ℚ) / 8⌉).toNat 0
          size := p.1
          hashCount := p.2
          capacity := capacity
          count := 0 }

/-! ## Codec: base64 (`btoa` / `atob` on byte-per-character strings) -/

/-- The base64 alphabet: sextet `n` to its character code. -/
def b64Char (n : ℕ) : ℕ :=
  if n < 26 then 65 + n
  else if n < 52 then 71 + n
  else if n < 62 then n - 4
  else if n = 62 then 43
  else 47

/-- Character code back to sextet; `none` for a character outside the
alphabet (where `atob` would throw). -/
def b64Sextet (c : ℕ) : Option ℕ :=
  if 65 ≤ c ∧ c ≤ 90 then some (c - 65)
  else if 97 ≤ c ∧ c ≤ 122 then some (c - 71)
  else if 48 ≤ c ∧ c ≤ 57 then some (c + 4)
  else if c = 43 then some 62
  else if c = 47 then some 63
  else none

/-- `btoa` on a byte list: standard base64 with `=` (code 61) padding. -/
def base64Encode : List ℕ → List ℕ
  | [] => []
  | [b0] => [b64Char (b0 / 4), b64Char (b0 % 4 * 16), 61, 61]
  | [b0, b1] => [b64Char (b0 / 4), b64Char (b0 % 4 * 16 + b1 / 16), b64Char (b1 % 16 * 4), 61]
  | b0 :: b1 :: b2 :: rest =>
      b64Char (b0 / 4) :: b64Char (b0 % 4 * 16 + b1 / 16) ::
        b64Char (b1 % 16 * 4 + b2 / 64) :: b64Char (b2 % 64) :: base64Encode rest

/-- `atob` on a base64 string: four characters decode to three bytes, with
the final quadruple allowed one or two `=` padding characters. -/
def base64Decode : List ℕ → Option (List ℕ)
  | [] => some []
  | c0 :: c1 :: c2 :: c3 :: rest =>
      match b64Sextet c0, b64Sextet c1 with
      | some s0, some s1 =>
          if c2 = 61 && c3 = 61 && rest.isEmpty then
            some [s0 * 4 + s1 / 16]
          else if c3 = 61 && rest.isEmpty then
            match b64Sextet c2 with
            | some s2 => some [s0 * 4 + s1 / 16, s1 % 16 * 16 + s2 / 4]
            | none => none
          else
            match b64Sextet c2, b64Sextet c3, base64Decode rest with
            | some s2, some s3, some bs =>
                some ((s0 * 4 + s1 / 16) :: (s1 % 16 * 16 + s2 / 4) :: (s2 % 4 * 64 + s3) :: bs)
            | _, _, _ => none
      | _, _ => none
  | _ => none

/-! ## Codec: wire format and `serialize` / `deserialize` -/

/-- The wire record. Each field is `none` when absent from the structurally
typed object (or not of the expected primitive type, which the source's
checks treat the same way). -/
structure SerializedBloomSift where
  bits : Option (List ℕ)
  size : Option ℚ
  hashCount : Option ℚ
  count : Option ℚ
  capacity : Option ℚ
  deriving DecidableEq

/-- `data.x <= 0 || !Number.isInteger(data.x)` fails; this is the passing
condition (an absent field fails `Number.isInteger`). -/
def isPosInt (q : Option ℚ) : Bool :=
  match q with
  | some q => decide (0 < q) && decide (q.den = 1)
  | none => false

/-- `data.x < 0 || !Number.isInteger(data.x)` fails; this is the passing
condition. -/
def isNonnegInt (q : Option ℚ) : Bool :=
  match q with
  | some q => decide (0 ≤ q) && decide (q.den = 1)
  | none => false

/-- The integer value of a validated field. -/
def fieldInt (q : Option ℚ) : ℤ :=
  match q with
  | some q => q.num
  | none => 0

/-- `Math.ceil(data.size / 8)`. -/
def expectedBytesOf (size : ℤ) : ℤ := ⌈(size : ℚ) / 8⌉

/-- `serialize()`: base64-encode the bit vector; the record carries `bits`,
`size`, `hashCount`, `count` and no `capacity` field. -/
def BloomSift.serialize (f : BloomSift) : SerializedBloomSift :=
  { bits := some (base64Encode f.bits)
    size := some (f.size : ℚ)
    hashCount := some (f.hashCount : ℚ)
    count := some (f.count : ℚ)
    capacity := none }

/-- `BloomSift.deserialize(data)`: the validation chain of the source, in
source order, then direct field assignment (`raw._capacity = data.count || 1`).
The dummy `new BloomSift({capacity: 1, errorRate: 0.5})` instance has every
field overwritten, so the result is assembled directly. An undecodable
`bits` string makes `atob` throw `InvalidCharacterError`. -/
def BloomSift.deserialize (data : SerializedBloomSift) : Except String BloomSift :=
  match data.bits with
  | none => .error "Invalid serialized data: missing bits"
  | some bitsStr =>
    if !isPosInt data.size then
      .error "Invalid serialized data: size must be a positive integer"
    else if !isPosInt data.hashCount then
      .error "Invalid serialized data: hashCount must be a positive integer"
    else if !isNonnegInt data.count then
      .error "Invalid serialized data: count must be a non-negative integer"
    else
      match base64Decode bitsStr with
      | none => .error "InvalidCharacterError"
      | some bytes =>
        if (bytes.length : ℤ) ≠ expectedBytesOf (fieldInt data.size) then
          .error ("Invalid serialized data: expected " ++
            toString (expectedBytesOf (fieldInt data.size)) ++ " bytes, got " ++
            toString bytes.length)
        else
          .ok { bits := bytes
                size := fieldInt data.size
                hashCount := fieldInt data.hashCount
                capacity := if fieldInt data.count = 0 then 1 else (fieldInt data.count : ℚ)
                count := fieldInt data.count }

/-- A wellformed filter: positive bit size, the byte buffer of exactly
`ceil(size / 8)` bytes the constructor allocates and `deserialize`
demands, at least one hash function, a non-negative insertion counter,
and actual byte values. `deserialize` establishes every conjunct through
its validation chain. The constructor establishes all of them except
`0 < hashCount`: for degenerate inputs with `errorRate` close to 1 the
rounded hash count is 0 (see `calcParams_1000_34`), and such a filter's
serialized record is in fact rejected by `deserialize` (see
`roundtrip_fails_for_hashCount_zero`). -/
def WF (f : BloomSift) : Prop :=
  0 < f.size ∧ (f.bits.length : ℤ) = ⌈(f.size : ℚ) / 8⌉ ∧
    0 < f.hashCount ∧ 0 ≤ f.count ∧ ∀ b ∈ f.bits, b < 256

/-! ## Bit array lemmas -/

lemma and_shift_ne_iff (b k : ℕ) : b &&& 1 <<< k ≠ 0 ↔ b.testBit k = true := by
  rw [Nat.shiftLeft_eq, one_mul, Nat.and_two_pow]
  cases h : b.testBit k <;> simp [h, (Nat.two_pow_pos k).ne']

lemma getBit_iff (bits : List ℕ) (i : ℕ) :
    getBit bits i = true ↔ ∃ b, bits.get? (i / 8) = some b ∧ b.testBit (i % 8) = true := by
  unfold getBit
  cases h : bits.get? (i / 8) with
  | none => simp [h]
  | some b => simp [h, and_shift_ne_iff]

lemma setBit_length (bits : List ℕ) (i : ℕ) : (setBit bits i).length = bits.length := by
  unfold setBit
  cases h : bits.get? (i / 8) <;> simp

lemma getBit_setBit_self {bits : List ℕ} {i : ℕ} (h : i / 8 < bits.length) :
    getBit (setBit bits i) i = true := by
  obtain ⟨cur, hcur⟩ : ∃ c, bits.get? (i / 8) = some c :=
    ⟨_, List.get?_eq_get h⟩
  rw [getBit_iff]
  refine ⟨cur ||| 1 <<< (i % 8), ?_, ?_⟩
  · unfold setBit
    rw [hcur]
    exact List.get?_set_eq_of_lt _ h
  · rw [Nat.shiftLeft_eq, one_mul, Nat.testBit_lor, Nat.testBit_two_pow_self, Bool.or_true]

lemma getBit_setBit_mono {bits : List ℕ} {i j : ℕ} (h : getBit bits j = true) :
    getBit (setBit bits i) j = true := by
  rw [getBit_iff] at h
  obtain ⟨b, hb, htb⟩ := h
  rw [getBit_iff]
  by_cases hij : i / 8 = j / 8
  · cases hc : bits.get? (i / 8) with
    | none =>
      refine ⟨b, ?_, htb⟩
      unfold setBit
      rw [hc]
      exact hb
    | some cur =>
      have hlen : i / 8 < bits.length := by
        by_contra hn
        push_neg at hn
        rw [List.get?_eq_none.mpr hn] at hc
        exact Option.noConfusion hc
      have hbc : b = cur := by
        rw [hij, hb] at hc
        exact Option.some.inj hc
      refine ⟨cur ||| 1 <<< (i % 8), ?_, ?_⟩
      · unfold setBit
        rw [hc, ← hij]
        exact List.get?_set_eq_of_lt _ hlen
      · rw [Nat.shiftLeft_eq, one_mul, Nat.testBit_lor, ← hbc, htb, Bool.true_or]
  · refine ⟨b, ?_, htb⟩
    unfold setBit
    cases hc : bits.get? (i / 8) with
    | none => exact hb
    | some cur => exact (List.get?_set_ne _ _ hij).trans hb

lemma setBit_mem_lt {bits : List ℕ} (hb : ∀ b ∈ bits, b < 256) (i : ℕ) :
    ∀ b ∈ setBit bits i, b < 256 := by
  unfold setBit
  cases hc : bits.get? (i / 8) with
  | none => exact hb
  | some cur =>
    intro b hmem
    rcases List.mem_or_eq_of_mem_set hmem with h | h
    · exact hb b h
    · subst h
      have hcur : cur < 256 := hb cur (List.get?_mem hc)
      have hpow : 1 <<< (i % 8) < 256 := by
        rw [Nat.shiftLeft_eq, one_mul]
        calc 2 ^ (i % 8) ≤ 2 ^ 7 := Nat.pow_le_pow_right (by norm_num) (by omega)
        _ < 256 := by norm_num
      exact (show (256 : ℕ) = 2 ^ 8 by norm_num) ▸
        Nat.or_lt_two_pow (by omega) (by omega)

lemma foldl_setBit_length (idxs : List ℕ) (bits : List ℕ) :
    (idxs.foldl setBit bits).length = bits.length := by
  induction idxs generalizing bits with
  | nil => rfl
  | cons i rest ih => rw [List.foldl_cons, ih, setBit_length]

lemma foldl_setBit_mono {bits : List ℕ} {j : ℕ} (idxs : List ℕ)
    (h : getBit bits j = true) : getBit (idxs.foldl setBit bits) j = true := by
  induction idxs generalizing bits with
  | nil => exact h
  | cons i rest ih => exact List.foldl_cons _ _ ▸ ih (getBit_setBit_mono h)

lemma foldl_setBit_mem_lt {bits : List ℕ} (idxs : List ℕ) (hb : ∀ b ∈ bits, b < 256) :
    ∀ b ∈ idxs.foldl setBit bits, b < 256 := by
  induction idxs generalizing bits with
  | nil => exact hb
  | cons i rest ih => exact List.foldl_cons _ _ ▸ ih (setBit_mem_lt hb i)

lemma foldl_setBit_sets {bits : List ℕ} (idxs : List ℕ)
    (hin : ∀ j ∈ idxs, j / 8 < bits.length) :
    ∀ j ∈ idxs, getBit (idxs.foldl setBit bits) j = true := by
  induction idxs generalizing bits with
  | nil => intro j hj; exact absurd hj (List.not_mem_nil j)
  | cons i rest ih =>
    intro j hj
    rw [List.foldl_cons]
    rcases List.mem_cons.mp hj with h | h
    · subst h
      exact foldl_setBit_mono rest (getBit_setBit_self (hin j (List.mem_cons_self j rest)))
    · refine ih (fun k hk => ?_) j h
      rw [setBit_length]
      exact hin k (List.mem_cons_of_mem i hk)

/-! ## Filter engine lemmas -/

lemma WF.size_pos {f : BloomSift} (hwf : WF f) : 0 < f.size := hwf.1

lemma WF.size_toNat_le {f : BloomSift} (hwf : WF f) :
    f.size.toNat ≤ 8 * f.bits.length := by
  have hceil : ((f.size : ℚ)) / 8 ≤ ((f.bits.length : ℤ) : ℚ) := by
    rw [hwf.2.1]
    exact Int.le_ceil _
  have h8 : (f.size : ℚ) ≤ 8 * ((f.bits.length : ℤ) : ℚ) := by linarith
  have hz : f.size ≤ 8 * (f.bits.length : ℤ) := by exact_mod_cast h8
  omega

lemma bitIndices_lt {f : BloomSift} (hs : 0 < f.size) (h1 h2 : ℕ) :
    ∀ j ∈ bitIndices f h1 h2, j < f.size.toNat := by
  intro j hj
  unfold bitIndices at hj
  obtain ⟨i, _, rfl⟩ := List.mem_map.mp hj
  exact Nat.mod_lt _ (by omega)

lemma bitIndices_div8_lt {f : BloomSift} (hwf : WF f) (h1 h2 : ℕ) :
    ∀ j ∈ bitIndices f h1 h2, j / 8 < f.bits.length := by
  intro j hj
  have hjlt : j < f.size.toNat := bitIndices_lt hwf.size_pos h1 h2 j hj
  have : j < 8 * f.bits.length := lt_of_lt_of_le hjlt hwf.size_toNat_le
  rw [Nat.div_lt_iff_lt_mul (by norm_num)]
  omega

lemma bitIndices_congr {f g : BloomSift} (hsz : g.size = f.size)
    (hhc : g.hashCount = f.hashCount) (h1 h2 : ℕ) :
    bitIndices g h1 h2 = bitIndices f h1 h2 := by
  unfold bitIndices
  rw [hsz, hhc]

lemma addItem_size (f : BloomSift) (x : ℕ) : (f.addItem x).size = f.size := rfl

lemma addItem_hashCount (f : BloomSift) (x : ℕ) : (f.addItem x).hashCount = f.hashCount := rfl

lemma addItem_bits (f : BloomSift) (x : ℕ) :
    (f.addItem x).bits = (bitIndices f (x / 2 ^ 64) (x % 2 ^ 64)).foldl setBit f.bits := rfl

lemma addItem_bits_length (f : BloomSift) (x : ℕ) :
    (f.addItem x).bits.length = f.bits.length := foldl_setBit_length _ _

lemma has_of_all_bits_set {f : BloomSift} {h1 h2 : ℕ}
    (h : ∀ j ∈ bitIndices f h1 h2, getBit f.bits j = true) :
    f.has h1 h2 = true := by
  unfold BloomSift.has
  rw [List.all_eq_true]
  exact h

/-- After `add(x)` every derived bit of `x` is set. -/
lemma addItem_sets {f : BloomSift} (hwf : WF f) (x : ℕ) :
    ∀ j ∈ bitIndices f (x / 2 ^ 64) (x % 2 ^ 64), getBit (f.addItem x).bits j = true := by
  rw [addItem_bits]
  exact foldl_setBit_sets _ (bitIndices_div8_lt hwf _ _)

/-! ## Claim C1: no false negatives -/

/-- C1. No false negatives: for every validly constructed filter `f` and
every item `x` (represented by its 128-bit hash value, the empty byte
sequence included since its hash is a value like any other), immediately
after `f.add(x)` the call `f.has(x)` returns true, and it continues to
return true after any further sequence of `add` calls (`later`) with no
intervening `clear`: `add` only ORs bits into the store, so set bits are
never cleared by `add` or `has`. -/
theorem no_false_negatives (f : BloomSift) (hwf : WF f) (x : ℕ) (later : List ℕ) :
    ((later.foldl BloomSift.addItem (f.addItem x)).hasItem x) = true := by
  suffices key : ∀ (l : List ℕ) (g : BloomSift), g.size = f.size →
      g.hashCount = f.hashCount →
      (∀ j ∈ bitIndices f (x / 2 ^ 64) (x % 2 ^ 64), getBit g.bits j = true) →
      ((l.foldl BloomSift.addItem g).hasItem x) = true by
    exact key later (f.addItem x) (addItem_size f x) (addItem_hashCount f x)
      (addItem_sets hwf x)
  intro l
  induction l with
  | nil =>
    intro g hsz hhc hset
    rw [List.foldl_nil]
    unfold BloomSift.hasItem
    apply has_of_all_bits_set
    rw [bitIndices_congr hsz hhc]
    exact hset
  | cons y ys ih =>
    intro g hsz hhc hset
    rw [List.foldl_cons]
    refine ih (g.addItem y) ((addItem_size g y).trans hsz)
      ((addItem_hashCount g y).trans hhc) (fun j hj => ?_)
    rw [addItem_bits]
    exact foldl_setBit_mono _ (hset j hj)

/-- Witness for C1 at a concrete filter (`size = 13`, two bytes, two hash
functions), item hash 12345 and one later insertion. -/
theorem no_false_negatives_witness :
    (([777].foldl BloomSift.addItem ((⟨[0, 0], 13, 2, 1, 0⟩ : BloomSift).addItem 12345)).hasItem
      12345) = true :=
  no_false_negatives ⟨[0, 0], 13, 2, 1, 0⟩
    ⟨by norm_num, by rw [eq_comm, Int.ceil_eq_iff]; norm_num, by norm_num, by norm_num, by decide⟩ 12345 [777]

/-! ## Claim C8: totality and in-bounds bit access -/

/-- C8. `add`, `has` and `clear` are total operations (in this embedding
they are plain functions, so totality is inherited from Lean); the
substantial content is that for a validly constructed filter the bit size
never exceeds 8 times the byte length of the store, and every derived bit
index `(h1 + i*h2) mod size` (exact arithmetic, `i < hashCount`) is
strictly below `size`, so that every byte the bit accessors touch exists
(`get?` returns `some`, the `undefined` guard of the source never fires). -/
theorem ops_total_inbounds (f : BloomSift) (hwf : WF f) (h1 h2 : ℕ) :
    f.size.toNat ≤ 8 * f.bits.length ∧
      ∀ i, i < f.hashCount.toNat →
        (h1 + i * h2) % f.size.toNat < f.size.toNat ∧
          ((f.bits.get? (((h1 + i * h2) % f.size.toNat) / 8)).isSome = true ∧
            ((f.clear).bits.get? (((h1 + i * h2) % f.size.toNat) / 8)).isSome = true) := by
  refine ⟨hwf.size_toNat_le, fun i hi => ?_⟩
  have hmem : (h1 + i * h2) % f.size.toNat ∈ bitIndices f h1 h2 := by
    unfold bitIndices
    exact List.mem_map.mpr ⟨i, List.mem_range.mpr hi, rfl⟩
  have hdiv : ((h1 + i * h2) % f.size.toNat) / 8 < f.bits.length :=
    bitIndices_div8_lt hwf h1 h2 _ hmem
  refine ⟨bitIndices_lt hwf.size_pos h1 h2 _ hmem, ?_, ?_⟩
  · rw [List.get?_eq_get hdiv]
    rfl
  · have hclen : (f.clear).bits.length = f.bits.length := by
      unfold BloomSift.clear
      exact List.length_replicate _ _
    rw [List.get?_eq_get (hclen ▸ hdiv)]
    rfl

/-- Witness for C8 at a concrete filter (`size = 13`, two bytes, three
hash functions) and hash halves 3 and 5: index 0 derived and in bounds. -/
theorem ops_total_inbounds_witness :
    (13 : ℤ).toNat ≤ 8 * 2 ∧
      ((3 + 0 * 5) % (13 : ℤ).toNat < (13 : ℤ).toNat ∧
        (([0, 0] : List ℕ).get? (((3 + 0 * 5) % (13 : ℤ).toNat) / 8)).isSome = true) := by
  have h := ops_total_inbounds ⟨[0, 0], 13, 3, 1, 0⟩
    ⟨by norm_num, by rw [eq_comm, Int.ceil_eq_iff]; norm_num, by norm_num, by norm_num, by decide⟩ 3 5
  exact ⟨h.1, (h.2 0 (by norm_num)).1, (h.2 0 (by norm_num)).2.1⟩

/-! ## Base64 round trip -/

lemma b64Sextet_b64Char : ∀ n < 64, b64Sextet (b64Char n) = some n := by decide

lemma b64Char_ne_61 : ∀ n < 64, b64Char n ≠ 61 := by decide

lemma base64Decode_encode (l : List ℕ) (hl : ∀ b ∈ l, b < 256) :
    base64Decode (base64Encode l) = some l := by
  induction l using base64Encode.induct with
  | case1 => rfl
  | case2 b0 =>
    have h0 : b0 < 256 := hl b0 (by simp)
    rw [base64Encode, base64Decode,
      b64Sextet_b64Char _ (by omega), b64Sextet_b64Char _ (by omega)]
    simp
    omega
  | case3 b0 b1 =>
    have h0 : b0 < 256 := hl b0 (by simp)
    have h1 : b1 < 256 := hl b1 (by simp)
    have hne : b64Char (b1 % 16 * 4) ≠ 61 := b64Char_ne_61 _ (by omega)
    rw [base64Encode, base64Decode,
      b64Sextet_b64Char _ (by omega), b64Sextet_b64Char _ (by omega)]
    simp [hne, b64Sextet_b64Char _ (show b1 % 16 * 4 < 64 by omega)]
    omega
  | case4 b0 b1 b2 rest ih =>
    have h0 : b0 < 256 := hl b0 (by simp)
    have h1 : b1 < 256 := hl b1 (by simp)
    have h2 : b2 < 256 := hl b2 (by simp)
    have hrest : ∀ b ∈ rest, b < 256 := fun b hb => hl b (by simp [hb])
    have hne2 : b64Char (b1 % 16 * 4 + b2 / 64) ≠ 61 := b64Char_ne_61 _ (by omega)
    have hne3 : b64Char (b2 % 64) ≠ 61 := b64Char_ne_61 _ (by omega)
    rw [base64Encode, base64Decode,
      b64Sextet_b64Char _ (by omega), b64Sextet_b64Char _ (by omega)]
    simp [hne2, hne3, ih hrest,
      b64Sextet_b64Char _ (show b1 % 16 * 4 + b2 / 64 < 64 by omega),
      b64Sextet_b64Char _ (show b2 % 64 < 64 by omega)]
    omega

/-! ## Claim C2: serialize / deserialize round trip -/

lemma isPosInt_intCast {z : ℤ} (hz : 0 < z) : isPosInt (some ((z : ℤ) : ℚ)) = true := by
  simp [isPosInt]
  exact_mod_cast hz

lemma isNonnegInt_intCast {z : ℤ} (hz : 0 ≤ z) : isNonnegInt (some ((z : ℤ) : ℚ)) = true := by
  simp [isNonnegInt]
  exact_mod_cast hz

lemma fieldInt_intCast (z : ℤ) : fieldInt (some ((z : ℤ) : ℚ)) = z := by
  simp [fieldInt]

/-- C2 (amended). Round trip for every wellformed filter `f` — in
particular `0 < f.hashCount`, which the constructor does not guarantee
for degenerate inputs (see `roundtrip_fails_for_hashCount_zero` for the
constructor-reachable filter whose round trip the code rejects):
`BloomSift.deserialize (f.serialize())` succeeds, and the restored filter
has the same `size`, `hashCount` and `count` as `f` and answers `has`
exactly as `f` does on every item (hash value) `x`, members and
non-members alike. -/
theorem deserialize_serialize_roundtrip (f : BloomSift) (hwf : WF f) :
    ∃ g, BloomSift.deserialize f.serialize = Except.ok g ∧
      g.size = f.size ∧ g.hashCount = f.hashCount ∧ g.count = f.count ∧
      ∀ x, g.hasItem x = f.hasItem x := by
  refine ⟨⟨f.bits, f.size, f.hashCount,
    if f.count = 0 then 1 else (f.count : ℚ), f.count⟩, ?_, rfl, rfl, rfl, fun x => rfl⟩
  have h1 : isPosInt (some ((f.size : ℤ) : ℚ)) = true := isPosInt_intCast hwf.1
  have h2 : isPosInt (some ((f.hashCount : ℤ) : ℚ)) = true := isPosInt_intCast hwf.2.2.1
  have h3 : isNonnegInt (some ((f.count : ℤ) : ℚ)) = true := isNonnegInt_intCast hwf.2.2.2.1
  have h4 : base64Decode (base64Encode f.bits) = some f.bits :=
    base64Decode_encode _ hwf.2.2.2.2
  have h6 : (f.bits.length : ℤ) = expectedBytesOf f.size := hwf.2.1
  simp [BloomSift.serialize, BloomSift.deserialize, h1, h2, h3, h4, fieldInt_intCast, h6]

/-- Witness for C2 at a concrete one-byte filter. -/
theorem deserialize_serialize_roundtrip_witness :
    ∃ g, BloomSift.deserialize (BloomSift.serialize ⟨[0], 1, 1, 1, 0⟩) = Except.ok g ∧
      g.size = (1 : ℤ) ∧ g.hashCount = (1 : ℤ) ∧ g.count = (0 : ℤ) ∧
      ∀ x, g.hasItem x = BloomSift.hasItem ⟨[0], 1, 1, 1, 0⟩ x :=
  deserialize_serialize_roundtrip ⟨[0], 1, 1, 1, 0⟩
    ⟨by norm_num, by rw [eq_comm, Int.ceil_eq_iff]; norm_num, by norm_num, by norm_num,
      by decide⟩

/-! ## Claim C5: deserialize validation chain -/

/-- C5. `deserialize` rejects malformed records with distinct messages, in
source order: missing/non-string `bits` first; then non-positive or
non-integer `size`; then non-positive or non-integer `hashCount`; then
negative or non-integer `count`; and finally a base64-decoded bit buffer
whose byte length differs from `ceil(size/8)`, with the message naming
expected and actual counts — concretely, `size = 100` with a one-byte
buffer fails with "expected 13 bytes, got 1". -/
theorem deserialize_validation (r : SerializedBloomSift) :
    (r.bits = none →
      BloomSift.deserialize r = .error "Invalid serialized data: missing bits") ∧
    (∀ s, r.bits = some s → isPosInt r.size = false →
      BloomSift.deserialize r =
        .error "Invalid serialized data: size must be a positive integer") ∧
    (∀ s, r.bits = some s → isPosInt r.size = true → isPosInt r.hashCount = false →
      BloomSift.deserialize r =
        .error "Invalid serialized data: hashCount must be a positive integer") ∧
    (∀ s, r.bits = some s → isPosInt r.size = true → isPosInt r.hashCount = true →
      isNonnegInt r.count = false →
      BloomSift.deserialize r =
        .error "Invalid serialized data: count must be a non-negative integer") ∧
    (∀ s bytes, r.bits = some s → isPosInt r.size = true → isPosInt r.hashCount = true →
      isNonnegInt r.count = true → base64Decode s = some bytes →
      (bytes.length : ℤ) ≠ expectedBytesOf (fieldInt r.size) →
      BloomSift.deserialize r = .error ("Invalid serialized data: expected " ++
        toString (expectedBytesOf (fieldInt r.size)) ++ " bytes, got " ++
        toString bytes.length)) ∧
    BloomSift.deserialize ⟨some [65, 65, 61, 61], some 100, some 7, some 0, none⟩ =
      .error "Invalid serialized data: expected 13 bytes, got 1" := by
  refine ⟨?_, ?_, ?_, ?_, ?_, ?_⟩
  · intro h
    simp [BloomSift.deserialize, h]
  · intro s hs hsize
    simp [BloomSift.deserialize, hs, hsize]
  · intro s hs hsize hhc
    simp [BloomSift.deserialize, hs, hsize, hhc]
  · intro s hs hsize hhc hcnt
    simp [BloomSift.deserialize, hs, hsize, hhc, hcnt]
  · intro s bytes hs hsize hhc hcnt hdec hne
    simp [BloomSift.deserialize, hs, hsize, hhc, hcnt, hdec, hne]
  · have h1 : isPosInt (some (100 : ℚ)) = true := by decide
    have h2 : isPosInt (some (7 : ℚ)) = true := by decide
    have h3 : isNonnegInt (some (0 : ℚ)) = true := by decide
    have h4 : fieldInt (some (100 : ℚ)) = 100 := by decide
    have hdec : base64Decode [65, 65, 61, 61] = some [0] := by decide
    have hexp : expectedBytesOf 100 = 13 := by norm_num [expectedBytesOf, Int.ceil_eq_iff]
    simp [BloomSift.deserialize, h1, h2, h3, h4, hdec, hexp]
    rfl

/-! ## Claim C6: the capacity field of a record is not validated -/

/-- C6 (refuted in the code, supporting the code_bug record). The repo's
own test expects
`deserialize({bits: 'AA==', size: 8, hashCount: 7, capacity: 0, count: 0})`
to throw "capacity must be a positive integer", but `deserialize` in the
source never examines a `capacity` field: on this exact input it succeeds,
returning the restored filter (with `_capacity` set to `count || 1 = 1`). -/
theorem deserialize_accepts_zero_capacity :
    BloomSift.deserialize ⟨some [65, 65, 61, 61], some 8, some 7, some 0, some 0⟩ =
      Except.ok ⟨[0], 8, 7, 1, 0⟩ := by
  have h1 : isPosInt (some (8 : ℚ)) = true := by decide
  have h2 : isPosInt (some (7 : ℚ)) = true := by decide
  have h3 : isNonnegInt (some (0 : ℚ)) = true := by decide
  have h4 : fieldInt (some (8 : ℚ)) = 8 := by decide
  have h5 : fieldInt (some (7 : ℚ)) = 7 := by decide
  have h6 : fieldInt (some (0 : ℚ)) = 0 := by decide
  have hdec : base64Decode [65, 65, 61, 61] = some [0] := by decide
  have hexp : expectedBytesOf 8 = 1 := by norm_num [expectedBytesOf]
  simp [BloomSift.deserialize, h1, h2, h3, h4, h5, h6, hdec, hexp]

/-! ## Claim C9: restored capacity and fill ratio -/

/-- C9. Every record accepted by `deserialize` yields a filter whose
`_capacity` is `count || 1`, i.e. the record's `count` when non-zero and 1
otherwise; consequently the restored filter's `fillRatio` is exactly 1
whenever `count > 0` and exactly 0 when `count = 0`, whatever the fill
ratio of the filter that produced the record. -/
theorem deserialize_capacity_is_count (r : SerializedBloomSift) (g : BloomSift)
    (h : BloomSift.deserialize r = Except.ok g) :
    (g.capacity = if g.count = 0 then 1 else (g.count : ℚ)) ∧
      g.fillRatio = if g.count = 0 then 0 else 1 := by
  unfold BloomSift.deserialize at h
  split at h
  · exact Except.noConfusion h
  split at h
  · exact Except.noConfusion h
  split at h
  · exact Except.noConfusion h
  split at h
  · exact Except.noConfusion h
  split at h
  · exact Except.noConfusion h
  split at h
  · exact Except.noConfusion h
  rename_i bitsStr hbits hsz hhc hcnt bytes hbytes hlen
  have hg := (Except.ok.inj h).symm
  subst hg
  simp only [BloomSift.fillRatio]
  by_cases hc : fieldInt r.count = 0
  · simp [hc]
  · simp only [hc, if_neg hc, if_false]
    have hcq : ((fieldInt r.count : ℤ) : ℚ) ≠ 0 := Int.cast_ne_zero.mpr hc
    rw [div_self hcq]
    simp

/-- Witness for C9: the record `{bits: 'AA==', size: 8, hashCount: 7,
count: 5}` deserializes to a filter with capacity 5 and fill ratio 1. -/
theorem deserialize_capacity_is_count_witness :
    ((⟨[0], 8, 7, 5, 5⟩ : BloomSift).capacity =
        if (⟨[0], 8, 7, 5, 5⟩ : BloomSift).count = 0 then 1
        else ((⟨[0], 8, 7, 5, 5⟩ : BloomSift).count : ℚ)) ∧
      (⟨[0], 8, 7, 5, 5⟩ : BloomSift).fillRatio =
        if (⟨[0], 8, 7, 5, 5⟩ : BloomSift).count = 0 then 0 else 1 := by
  refine deserialize_capacity_is_count ⟨some [65, 65, 61, 61], some 8, some 7, some 5, none⟩
    ⟨[0], 8, 7, 5, 5⟩ ?_
  have h1 : isPosInt (some (8 : ℚ)) = true := by decide
  have h2 : isPosInt (some (7 : ℚ)) = true := by decide
  have h3 : isNonnegInt (some (5 : ℚ)) = true := by decide
  have h4 : fieldInt (some (8 : ℚ)) = 8 := by decide
  have h5 : fieldInt (some (7 : ℚ)) = 7 := by decide
  have h6 : fieldInt (some (5 : ℚ)) = 5 := by decide
  have hdec : base64Decode [65, 65, 61, 61] = some [0] := by decide
  have hexp : expectedBytesOf 8 = 1 := by norm_num [expectedBytesOf]
  simp [BloomSift.deserialize, h1, h2, h3, h4, h5, h6, hdec, hexp]

/-! ## Numeric bounds on the logarithms the parameter calculator uses

`Real.log 2` is bounded by Mathlib's nine-digit estimates; the other
logarithms are reduced to `log (1 - x)` for a small rational `x` via
`log (2^k * (1 - x))` and bounded with the Taylor remainder estimate
`Real.abs_log_sub_add_sum_range_le`. -/

lemma log_hundred_bounds : (4.6051688 : ℝ) < Real.log 100 ∧ Real.log 100 < 4.6051719 := by
  have hx : |(7 / 32 : ℝ)| < 1 := by rw [abs_of_pos] <;> norm_num
  have h := Real.abs_log_sub_add_sum_range_le hx 8
  have hsum : (∑ i ∈ Finset.range 8, (7 / 32 : ℝ) ^ (i + 1) / (i + 1)) =
      32571042186319 / 131941395333120 := by
    simp [Finset.sum_range_succ]
    norm_num
  have hbound : |(7 / 32 : ℝ)| ^ 9 / (1 - |(7 / 32 : ℝ)|) = 40353607 / 27487790694400 := by
    rw [abs_of_pos (by norm_num : (0 : ℝ) < 7 / 32)]
    norm_num
  rw [hsum, hbound, abs_le] at h
  have hl100 : Real.log 100 = 7 * Real.log 2 + Real.log (1 - 7 / 32) := by
    rw [show (100 : ℝ) = 2 ^ 7 * (1 - 7 / 32) by norm_num,
      Real.log_mul (by norm_num) (by norm_num), Real.log_pow]
    norm_num
  have hlo := Real.log_two_gt_d9
  have hhi := Real.log_two_lt_d9
  constructor <;> rw [hl100] <;> linarith [h.1, h.2]

lemma log_thousand_bounds : (6.9077550 : ℝ) < Real.log 1000 ∧ Real.log 1000 < 6.9077557 := by
  have hx : |(3 / 128 : ℝ)| < 1 := by rw [abs_of_pos] <;> norm_num
  have h := Real.abs_log_sub_add_sum_range_le hx 3
  have hsum : (∑ i ∈ Finset.range 3, (3 / 128 : ℝ) ^ (i + 1) / (i + 1)) =
      49737 / 2097152 := by
    simp [Finset.sum_range_succ]
    norm_num
  have hbound : |(3 / 128 : ℝ)| ^ 4 / (1 - |(3 / 128 : ℝ)|) = 81 / 262144000 := by
    rw [abs_of_pos (by norm_num : (0 : ℝ) < 3 / 128)]
    norm_num
  rw [hsum, hbound, abs_le] at h
  have hl1000 : Real.log 1000 = 10 * Real.log 2 + Real.log (1 - 3 / 128) := by
    rw [show (1000 : ℝ) = 2 ^ 10 * (1 - 3 / 128) by norm_num,
      Real.log_mul (by norm_num) (by norm_num), Real.log_pow]
    norm_num
  have hlo := Real.log_two_gt_d9
  have hhi := Real.log_two_lt_d9
  constructor <;> rw [hl1000] <;> linarith [h.1, h.2]

lemma log_three_quarters_bounds :
    (-0.28773 : ℝ) < Real.log (3 / 4) ∧ Real.log (3 / 4) < -0.28765 := by
  have hx : |(1 / 4 : ℝ)| < 1 := by rw [abs_of_pos] <;> norm_num
  have h := Real.abs_log_sub_add_sum_range_le hx 7
  have hsum : (∑ i ∈ Finset.range 7, (1 / 4 : ℝ) ^ (i + 1) / (i + 1)) =
      164967 / 573440 := by
    simp [Finset.sum_range_succ]
    norm_num
  have hbound : |(1 / 4 : ℝ)| ^ 8 / (1 - |(1 / 4 : ℝ)|) = 1 / 49152 := by
    rw [abs_of_pos (by norm_num : (0 : ℝ) < 1 / 4)]
    norm_num
  rw [hsum, hbound, abs_le] at h
  have h34 : Real.log (3 / 4) = Real.log (1 - 1 / 4) := by norm_num
  constructor <;> rw [h34] <;> linarith [h.1, h.2]

/-! ## Evaluating the parameter calculator at concrete inputs -/

lemma calculateOptimalParams_eq {c p : ℚ} {m k : ℤ}
    (hm : ⌈-(c : ℝ) * Real.log (p : ℝ) / (Real.log 2 * Real.log 2)⌉ = m)
    (hk : round ((m : ℝ) / (c : ℝ) * Real.log 2) = k) :
    calculateOptimalParams c p = (m, k) := by
  show (⌈-(c : ℝ) * Real.log (p : ℝ) / (Real.log 2 * Real.log 2)⌉,
      round (((⌈-(c : ℝ) * Real.log (p : ℝ) / (Real.log 2 * Real.log 2)⌉ : ℤ) : ℝ) /
        (c : ℝ) * Real.log 2)) = (m, k)
  rw [hm, hk]

lemma calcParams_1000_inv100 : calculateOptimalParams 1000 (1 / 100) = (9586, 7) := by
  have hp : (0 : ℝ) < Real.log 2 := Real.log_pos (by norm_num)
  have hlo := Real.log_two_gt_d9
  have hhi := Real.log_two_lt_d9
  have hll : Real.log 2 * Real.log 2 < 0.6931471808 * 0.6931471808 :=
    mul_lt_mul'' hhi hhi hp.le hp.le
  have hll2 : (0.6931471803 : ℝ) * 0.6931471803 < Real.log 2 * Real.log 2 :=
    mul_lt_mul'' hlo hlo (by norm_num) (by norm_num)
  have hpos : (0 : ℝ) < Real.log 2 * Real.log 2 := mul_pos hp hp
  have h100 := log_hundred_bounds
  apply calculateOptimalParams_eq
  · have e1 : ((1000 : ℚ) : ℝ) = 1000 := by norm_num
    have e2 : ((1 / 100 : ℚ) : ℝ) = 1 / 100 := by norm_num
    rw [e1, e2, one_div, Real.log_inv, Int.ceil_eq_iff]
    constructor
    · push_cast
      rw [lt_div_iff hpos]
      nlinarith [h100.1, hll]
    · push_cast
      rw [div_le_iff hpos]
      nlinarith [h100.2, hll2]
  · have e1 : ((1000 : ℚ) : ℝ) = 1000 := by norm_num
    have e3 : ((9586 : ℤ) : ℝ) = 9586 := by norm_num
    rw [e1, e3, round_eq, Int.floor_eq_iff]
    constructor
    · push_cast
      linarith
    · push_cast
      linarith

lemma calcParams_100_inv1000 : calculateOptimalParams 100 (1 / 1000) = (1438, 10) := by
  have hp : (0 : ℝ) < Real.log 2 := Real.log_pos (by norm_num)
  have hlo := Real.log_two_gt_d9
  have hhi := Real.log_two_lt_d9
  have hll : Real.log 2 * Real.log 2 < 0.6931471808 * 0.6931471808 :=
    mul_lt_mul'' hhi hhi hp.le hp.le
  have hll2 : (0.6931471803 : ℝ) * 0.6931471803 < Real.log 2 * Real.log 2 :=
    mul_lt_mul'' hlo hlo (by norm_num) (by norm_num)
  have hpos : (0 : ℝ) < Real.log 2 * Real.log 2 := mul_pos hp hp
  have h1000 := log_thousand_bounds
  apply calculateOptimalParams_eq
  · have e1 : ((100 : ℚ) : ℝ) = 100 := by norm_num
    have e2 : ((1 / 1000 : ℚ) : ℝ) = 1 / 1000 := by norm_num
    rw [e1, e2, one_div, Real.log_inv, Int.ceil_eq_iff]
    constructor
    · push_cast
      rw [lt_div_iff hpos]
      nlinarith [h1000.1, hll]
    · push_cast
      rw [div_le_iff hpos]
      nlinarith [h1000.2, hll2]
  · have e1 : ((100 : ℚ) : ℝ) = 100 := by norm_num
    have e3 : ((1438 : ℤ) : ℝ) = 1438 := by norm_num
    rw [e1, e3, round_eq, Int.floor_eq_iff]
    constructor
    · push_cast
      linarith
    · push_cast
      linarith

lemma calcParams_1000_34 : calculateOptimalParams 1000 (3 / 4) = (599, 0) := by
  have hp : (0 : ℝ) < Real.log 2 := Real.log_pos (by norm_num)
  have hlo := Real.log_two_gt_d9
  have hhi := Real.log_two_lt_d9
  have hll : Real.log 2 * Real.log 2 < 0.6931471808 * 0.6931471808 :=
    mul_lt_mul'' hhi hhi hp.le hp.le
  have hll2 : (0.6931471803 : ℝ) * 0.6931471803 < Real.log 2 * Real.log 2 :=
    mul_lt_mul'' hlo hlo (by norm_num) (by norm_num)
  have hpos : (0 : ℝ) < Real.log 2 * Real.log 2 := mul_pos hp hp
  have h34 := log_three_quarters_bounds
  apply calculateOptimalParams_eq
  · have e1 : ((1000 : ℚ) : ℝ) = 1000 := by norm_num
    have e2 : ((3 / 4 : ℚ) : ℝ) = 3 / 4 := by norm_num
    rw [e1, e2, Int.ceil_eq_iff]
    constructor
    · push_cast
      rw [lt_div_iff hpos]
      nlinarith [h34.2, hll]
    · push_cast
      rw [div_le_iff hpos]
      nlinarith [h34.1, hll2]
  · have e1 : ((1000 : ℚ) : ℝ) = 1000 := by norm_num
    have e3 : ((599 : ℤ) : ℝ) = 599 := by norm_num
    rw [e1, e3, round_eq, Int.floor_eq_iff]
    constructor
    · push_cast
      linarith
    · push_cast
      linarith

lemma calcParams_neg1_half : calculateOptimalParams (-1) (1 / 2) = (-1, 1) := by
  have hp : (0 : ℝ) < Real.log 2 := Real.log_pos (by norm_num)
  have hlo := Real.log_two_gt_d9
  have hhi := Real.log_two_lt_d9
  have hpos : (0 : ℝ) < Real.log 2 * Real.log 2 := mul_pos hp hp
  apply calculateOptimalParams_eq
  · have e1 : ((-1 : ℚ) : ℝ) = -1 := by norm_num
    have e2 : ((1 / 2 : ℚ) : ℝ) = 1 / 2 := by norm_num
    rw [e1, e2, one_div, Real.log_inv, Int.ceil_eq_iff]
    constructor
    · push_cast
      rw [lt_div_iff hpos]
      nlinarith [mul_lt_mul_of_pos_left hlo hp]
    · push_cast
      rw [div_le_iff hpos]
      nlinarith [mul_lt_mul_of_pos_left hhi hp]
  · have e1 : ((-1 : ℚ) : ℝ) = -1 := by norm_num
    have e3 : ((-1 : ℤ) : ℝ) = -1 := by norm_num
    rw [e1, e3, round_eq, Int.floor_eq_iff]
    constructor
    · push_cast
      linarith
    · push_cast
      linarith

lemma calcParams_half_inv100 : calculateOptimalParams (1 / 2) (1 / 100) = (5, 7) := by
  have hp : (0 : ℝ) < Real.log 2 := Real.log_pos (by norm_num)
  have hlo := Real.log_two_gt_d9
  have hhi := Real.log_two_lt_d9
  have hll : Real.log 2 * Real.log 2 < 0.6931471808 * 0.6931471808 :=
    mul_lt_mul'' hhi hhi hp.le hp.le
  have hll2 : (0.6931471803 : ℝ) * 0.6931471803 < Real.log 2 * Real.log 2 :=
    mul_lt_mul'' hlo hlo (by norm_num) (by norm_num)
  have hpos : (0 : ℝ) < Real.log 2 * Real.log 2 := mul_pos hp hp
  have h100 := log_hundred_bounds
  apply calculateOptimalParams_eq
  · have e1 : ((1 / 2 : ℚ) : ℝ) = 1 / 2 := by norm_num
    have e2 : ((1 / 100 : ℚ) : ℝ) = 1 / 100 := by norm_num
    rw [e1, e2, show (1 / 100 : ℝ) = (100 : ℝ)⁻¹ by norm_num, Real.log_inv, Int.ceil_eq_iff]
    constructor
    · push_cast
      rw [lt_div_iff hpos]
      nlinarith [h100.1, hll]
    · push_cast
      rw [div_le_iff hpos]
      nlinarith [h100.2, hll2]
  · have e1 : ((1 / 2 : ℚ) : ℝ) = 1 / 2 := by norm_num
    have e3 : ((5 : ℤ) : ℝ) = 5 := by norm_num
    rw [e1, e3, round_eq, Int.floor_eq_iff]
    constructor
    · push_cast
      linarith
    · push_cast
      linarith

/-! ## Claim C7: reference values -/

/-- C7. `calculateOptimalParams(1000, 0.01)` returns exactly
`size = 9586`, `hashCount = 7`, and `calculateOptimalParams(100, 0.001)`
returns exactly `size = 1438`, `hashCount = 10`, with
`size = ceil(-capacity * ln(errorRate) / ln(2)^2)` and
`hashCount = round((size / capacity) * ln 2)`. -/
theorem calculateOptimalParams_reference_values :
    calculateOptimalParams 1000 (1 / 100) = (9586, 7) ∧
      calculateOptimalParams 100 (1 / 1000) = (1438, 10) :=
  ⟨calcParams_1000_inv100, calcParams_100_inv1000⟩

/-! ## Claim C3: where the validation lives -/

/-- C3 is refuted on the code: `calculateOptimalParams` contains no
validation and no throw statement at all, so at the invalid input
`capacity = -1`, `errorRate = 1/2` it returns the ordinary record
`(size, hashCount) = (-1, 1)` instead of raising. -/
theorem calculateOptimalParams_no_raise :
    calculateOptimalParams (-1) (1 / 2) = (-1, 1) :=
  calcParams_neg1_half

/-- C3 (amended). The validation the claim describes is performed by the
`BloomSift` constructor, not by `calculateOptimalParams`: construction
fails with "capacity must be positive" whenever `capacity ≤ 0`, and with
"errorRate must be between 0 and 1" whenever `errorRate` lies outside the
open interval (0, 1); on valid inputs it returns a filter. -/
theorem constructor_validates (c p : ℚ) :
    (c ≤ 0 → mkBloomSift c p = Except.error "capacity must be positive") ∧
      (0 < c → (p ≤ 0 ∨ 1 ≤ p) →
        mkBloomSift c p = Except.error "errorRate must be between 0 and 1") ∧
      (0 < c → 0 < p → p < 1 → ∃ g, mkBloomSift c p = Except.ok g) := by
  refine ⟨?_, ?_, ?_⟩
  · intro h
    rw [mkBloomSift, if_pos h]
  · intro h0 hbad
    rw [mkBloomSift, if_neg (not_le.mpr h0), if_pos hbad]
  · intro h0 hp h1
    rw [mkBloomSift, if_neg (not_le.mpr h0), if_neg (by push_neg; exact ⟨hp, h1⟩)]
    exact ⟨_, rfl⟩

/-! ## Claim C4: the hash count has no floor -/

/-- C4 is refuted on the code: `hashCount` is
`Math.round((size / capacity) * Math.LN2)` with no floor of 1. At the
valid input `capacity = 1000`, `errorRate = 3/4` the computed size is 599
and the rounded hash count is 0. -/
theorem hashCount_zero_for_degenerate_rate :
    calculateOptimalParams 1000 (3 / 4) = (599, 0) :=
  calcParams_1000_34

/-- C4 (amended). `hashCount = round((size / capacity) * ln 2)` with no
floor applied, so it can be 0 for valid degenerate inputs with `errorRate`
close to 1; it is however at least 1 whenever `errorRate ≤ 1/2` (any
capacity `> 0`), because then `size ≥ capacity / ln 2`. -/
theorem hashCount_pos_of_errorRate_le_half (c p : ℚ) (hc : 0 < c) (hp : 0 < p)
    (hhalf : p ≤ 1 / 2) : 1 ≤ (calculateOptimalParams c p).2 := by
  have hl : (0 : ℝ) < Real.log 2 := Real.log_pos (by norm_num)
  have hpos : (0 : ℝ) < Real.log 2 * Real.log 2 := mul_pos hl hl
  have hcr : (0 : ℝ) < (c : ℝ) := by exact_mod_cast hc
  have hpr : (0 : ℝ) < (p : ℝ) := by exact_mod_cast hp
  have hp2 : (p : ℝ) ≤ 1 / 2 := by
    have hq := (Rat.cast_le (K := ℝ)).mpr hhalf
    simpa using hq
  have hlog : Real.log (p : ℝ) ≤ -Real.log 2 := by
    have hmono := Real.log_le_log hpr hp2
    rwa [show (1 / 2 : ℝ) = (2 : ℝ)⁻¹ by norm_num, Real.log_inv] at hmono
  have hXlb : (c : ℝ) / Real.log 2 ≤
      -(c : ℝ) * Real.log (p : ℝ) / (Real.log 2 * Real.log 2) := by
    rw [div_le_div_iff hl hpos]
    nlinarith [mul_le_mul_of_nonneg_right
      (neg_le_neg (mul_le_mul_of_nonneg_left hlog hcr.le)) hl.le]
  have hmlb : (c : ℝ) / Real.log 2 ≤
      ((⌈-(c : ℝ) * Real.log (p : ℝ) / (Real.log 2 * Real.log 2)⌉ : ℤ) : ℝ) :=
    le_trans hXlb (Int.le_ceil _)
  have hx1 : (1 : ℝ) ≤
      ((⌈-(c : ℝ) * Real.log (p : ℝ) / (Real.log 2 * Real.log 2)⌉ : ℤ) : ℝ) /
        (c : ℝ) * Real.log 2 := by
    rw [div_mul_eq_mul_div, le_div_iff hcr, one_mul]
    have := (div_le_iff hl).mp hmlb
    linarith
  show 1 ≤ round (((⌈-(c : ℝ) * Real.log (p : ℝ) / (Real.log 2 * Real.log 2)⌉ : ℤ) : ℝ) /
    (c : ℝ) * Real.log 2)
  rw [round_eq]
  refine Int.le_floor.mpr ?_
  push_cast
  linarith

/-- Witness for C4's amended theorem at `capacity = 1`, `errorRate = 1/2`. -/
theorem hashCount_pos_of_errorRate_le_half_witness :
    1 ≤ (calculateOptimalParams 1 (1 / 2)).2 :=
  hashCount_pos_of_errorRate_le_half 1 (1 / 2) (by norm_num) (by norm_num) (by norm_num)

/-! ## Claim C10: the construction surface checks exactly two conditions -/

/-- C10. The constructor's validation checks exactly `capacity > 0` and
`0 < errorRate < 1` and nothing else: construction succeeds precisely on
those inputs. In particular the non-integer capacity 1/2 is accepted and
used as-is — the resulting filter has `size = 5`, `hashCount = 7` (both
computed from capacity 0.5) and stores `capacity = 1/2`, the `fillRatio`
denominator. No integrality check is performed on capacity. -/
theorem constructor_surface_exact :
    (∀ c p : ℚ, (∃ g, mkBloomSift c p = Except.ok g) ↔ 0 < c ∧ 0 < p ∧ p < 1) ∧
      mkBloomSift (1 / 2) (1 / 100) =
        Except.ok ⟨List.replicate 1 0, 5, 7, 1 / 2, 0⟩ := by
  constructor
  · intro c p
    constructor
    · rintro ⟨g, hg⟩
      by_cases h1 : c ≤ 0
      · rw [mkBloomSift, if_pos h1] at hg
        exact Except.noConfusion hg
      by_cases h2 : p ≤ 0 ∨ 1 ≤ p
      · rw [mkBloomSift, if_neg h1, if_pos h2] at hg
        exact Except.noConfusion hg
      push_neg at h1 h2
      exact ⟨h1, h2.1, h2.2⟩
    · rintro ⟨h1, h2, h3⟩
      rw [mkBloomSift, if_neg (not_le.mpr h1), if_neg (by push_neg; exact ⟨h2, h3⟩)]
      exact ⟨_, rfl⟩
  · rw [mkBloomSift, if_neg (by norm_num), if_neg (by norm_num)]
    simp only [calcParams_half_inv100]
    norm_num
    have hc58 : (⌈(5 / 8 : ℚ)⌉ : ℤ) = 1 := by
      rw [Int.ceil_eq_iff]
      norm_num
    rw [hc58]
    rfl

/-! ## Claim C2, refuted as frozen: a constructor-reachable filter whose
round trip the code rejects -/

/-- C2 counterexample. `new BloomSift({capacity: 1000, errorRate: 3/4})`
succeeds and yields the filter with `size = 599`, `hashCount = 0`
(75 zero bytes); `serialize` of that filter emits `hashCount: 0`, which
`deserialize` rejects with "hashCount must be a positive integer" — so
`deserialize(f.serialize())` does not succeed for every validly
constructed filter. -/
theorem roundtrip_fails_for_hashCount_zero :
    mkBloomSift 1000 (3 / 4) =
        Except.ok ⟨List.replicate 75 0, 599, 0, 1000, 0⟩ ∧
      BloomSift.deserialize
          (BloomSift.serialize ⟨List.replicate 75 0, 599, 0, 1000, 0⟩) =
        Except.error "Invalid serialized data: hashCount must be a positive integer" := by
  refine ⟨?_, ?_⟩
  · rw [mkBloomSift, if_neg (by norm_num), if_neg (by norm_num)]
    simp only [calcParams_1000_34]
    norm_num
    have hc : (⌈(599 / 8 : ℚ)⌉ : ℤ) = 75 := by
      rw [Int.ceil_eq_iff]
      norm_num
    rw [hc]
    rfl
  · have h1 : isPosInt (some (599 : ℚ)) = true := by decide
    have h2 : isPosInt (some (0 : ℚ)) = false := by decide
    simp [BloomSift.serialize, BloomSift.deserialize, h1, h2]
